import Mathlib

/-
Shallow embedding of the fx_payment_processor wallet core:
  - src/src/models/currency.py            (Currency)
  - src/src/models/wallet.py              (Wallet)
  - src/src/models/transaction.py         (Transaction, TransactionType)
  - src/src/repositories/wallet_repository.py
  - src/src/repositories/transaction_repository.py
  - src/src/services/wallet_service.py    (WalletService)
  - src/src/services/fx_rates.py          (FXRateService._update_api_rates)
  - src/src/schemas/wallet.py             (request validation at the API boundary)

Monetary values are exact decimals in Python (decimal.Decimal); they are
embedded as rationals.  Every repository method commits immediately
(session.commit() inside create/update) and then session.refresh() re-reads
the committed row, so the committed database state after each repository
call is the updated state value with the store's column rounding applied: the
balance and transaction amount columns are Numeric(precision=20, scale=2) and
the fx_rate column is Numeric(20, 4), so the committed (and subsequently
observed) values are rounded to 2 respectively 4 fractional digits — modelled
by quantize2/quantize4 below, rounding half away from zero on the
non-negative monetary values in scope, as the PostgreSQL numeric cast does.
An operation that raises mid-way leaves exactly the state committed so far.
Timestamps are embedded as naturals.
-/

namespace FxProc

/-- Currency: closed enumeration from src/src/models/currency.py; exactly USD and MXN. -/
inductive Currency : Type
  | USD : Currency
  | MXN : Currency
deriving DecidableEq

/-- TransactionType from src/src/models/transaction.py. -/
inductive TransactionType : Type
  | FUND : TransactionType
  | CONVERT : TransactionType
  | WITHDRAW : TransactionType
deriving DecidableEq

/-- Transaction row from src/src/models/transaction.py: optional single-currency
fields (fund/withdraw) and optional conversion fields, id auto-assigned,
created_at timestamp. -/
structure Transaction : Type where
  id : Nat
  user_id : String
  transaction_type : TransactionType
  currency : Option Currency := none
  amount : Option ℚ := none
  from_currency : Option Currency := none
  to_currency : Option Currency := none
  from_amount : Option ℚ := none
  to_amount : Option ℚ := none
  fx_rate : Option ℚ := none
  created_at : Nat
deriving DecidableEq

/-- Wallet row from src/src/models/wallet.py: one balance per (user_id, currency),
unique by the unique_user_currency constraint, so the pair is the key. -/
structure Wallet : Type where
  user_id : String
  currency : Currency
  balance : ℚ
deriving DecidableEq

/-- Committed database state: the wallet table, the transaction table in
insertion order, and the auto-increment counter for transaction ids.
Transactions created by the engine get created_at equal to the id counter,
which preserves the creation order (ids and timestamps are assigned
monotonically within one run). -/
structure EngineState : Type where
  wallets : List Wallet
  txs : List Transaction
  next_tx_id : Nat
deriving DecidableEq

/-- Error kinds raised by WalletService (each is a distinct ValueError raise
site in src/src/services/wallet_service.py), plus the 422 validation error
produced by the Pydantic request schemas at the API boundary
(src/src/schemas/wallet.py). insufficientBalance carries the available and
required amounts, as the raised message does. -/
inductive WalletError : Type
  | sameCurrency : WalletError
  | unsupportedPair : Currency → Currency → WalletError
  | insufficientBalance : ℚ → ℚ → WalletError
  | validationError : WalletError
deriving DecidableEq

/-- Row predicate of the wallet queries: the row belongs to (u, c). -/
def wallet_matches (u : String) (c : Currency) (w : Wallet) : Bool :=
  w.user_id == u && w.currency == c

/-- WalletRepository.get_by_user_and_currency: first wallet matching the pair. -/
def get_by_user_and_currency (s : EngineState) (u : String) (c : Currency) :
    Option Wallet :=
  s.wallets.find? (wallet_matches u c)

/-- WalletRepository.create: insert a wallet with balance 0.00 and commit. -/
def wallet_create (s : EngineState) (u : String) (c : Currency) :
    Wallet × EngineState :=
  let w : Wallet := { user_id := u, currency := c, balance := 0 }
  (w, { s with wallets := s.wallets ++ [w] })

/-- WalletRepository.get_or_create: return the existing wallet or create one
with balance 0.00 (the creation is committed immediately). -/
def get_or_create (s : EngineState) (u : String) (c : Currency) :
    Wallet × EngineState :=
  match get_by_user_and_currency s u c with
  | some w => (w, s)
  | none => wallet_create s u c

/-- Storage rounding of a Numeric(20, 2) column: on commit the value is
rounded to 2 fractional digits (half away from zero for the non-negative
monetary values in scope, as PostgreSQL's numeric cast rounds), and refresh
re-reads this rounded value. -/
def quantize2 (q : ℚ) : ℚ :=
  ((⌊q * 100 + 1 / 2⌋ : ℤ) : ℚ) / 100

/-- Storage rounding of the Numeric(20, 4) fx_rate column: 4 fractional
digits. -/
def quantize4 (q : ℚ) : ℚ :=
  ((⌊q * 10000 + 1 / 2⌋ : ℤ) : ℚ) / 10000

/-- Value representable at the 2-fractional-digit column scale (a whole
number of cents). -/
def Scale2 (q : ℚ) : Prop :=
  (q * 100).den = 1

/-- Value representable at the 4-fractional-digit fx_rate column scale. -/
def Scale4 (q : ℚ) : Prop :=
  (q * 10000).den = 1

/-- State whose stored wallet balances all sit at the 2dp column scale —
every state the store can actually hold, since each commit rounds the balance
column to scale 2. -/
def Scale2State (s : EngineState) : Prop :=
  ∀ w ∈ s.wallets, Scale2 w.balance

/-- Row action of a persisted wallet mutation: the stored row carrying the
updated wallet's key takes the new value, every other row is untouched. -/
def wallet_row_update (w x : Wallet) : Wallet :=
  if wallet_matches w.user_id w.currency x then w else x

/-- WalletRepository.update: persist a mutated wallet row and commit.  The row
is keyed by its primary key; by the unique_user_currency constraint this is
the unique row with the same (user_id, currency).  The committed balance is
the written value rounded to the Numeric(20, 2) column scale. -/
def wallet_update (s : EngineState) (w : Wallet) : EngineState :=
  let stored : Wallet := { w with balance := quantize2 w.balance }
  { s with wallets := s.wallets.map (wallet_row_update stored) }

/-- WalletRepository.get_all_by_user: all wallets of one user, table order. -/
def get_all_by_user (s : EngineState) (u : String) : List Wallet :=
  s.wallets.filter (fun w => w.user_id == u)

/-- Column rounding the store applies to a committed transaction row: the
amount, from_amount and to_amount columns are Numeric(20, 2), the fx_rate
column is Numeric(20, 4); refresh re-reads these rounded values. -/
def tx_quantize (t : Transaction) : Transaction :=
  { t with
    amount := t.amount.map quantize2,
    from_amount := t.from_amount.map quantize2,
    to_amount := t.to_amount.map quantize2,
    fx_rate := t.fx_rate.map quantize4 }

/-- TransactionRepository.create: assign the next id (created_at recorded at
the same tick), append, commit (the committed row carries the column-rounded
values), refresh and return the stored row.  The builder receives the
assigned id. -/
def tx_create (s : EngineState) (build : Nat → Transaction) :
    Transaction × EngineState :=
  let t := tx_quantize (build s.next_tx_id)
  (t, { s with txs := s.txs ++ [t], next_tx_id := s.next_tx_id + 1 })

/-- Balance of the (u, c) wallet as stored, taking 0 when no row exists (the
balance a get_or_create would observe). -/
def balanceOf (s : EngineState) (u : String) (c : Currency) : ℚ :=
  match get_by_user_and_currency s u c with
  | some w => w.balance
  | none => 0

/-- Result dict of WalletService.fund_wallet / withdraw_funds. -/
structure SingleResult : Type where
  user_id : String
  currency : Currency
  amount : ℚ
  new_balance : ℚ
deriving DecidableEq

/-- Result dict of WalletService.convert_currency. -/
structure ConvertResult : Type where
  user_id : String
  from_currency : Currency
  to_currency : Currency
  from_amount : ℚ
  to_amount : ℚ
  fx_rate : ℚ
deriving DecidableEq

/-- Rate pair held by FXRateService (the usd_to_mxn and mxn_to_usd properties
read by the wallet service). -/
structure RateState : Type where
  usd_to_mxn : ℚ
  mxn_to_usd : ℚ
deriving DecidableEq

/-- WalletService.fund_wallet: get-or-create the wallet, add the amount
(no validation of the amount happens in the service), persist, append a FUND
transaction.  Returns the result dict and the committed state; the code
rebinds the wallet to the value update() returns — the refreshed committed
row — so the reported new_balance is the column-rounded stored balance. -/
def fund_wallet (u : String) (c : Currency) (a : ℚ) (s : EngineState) :
    Except WalletError SingleResult × EngineState :=
  let ws := get_or_create s u c
  let w := { ws.1 with balance := ws.1.balance + a }
  let s2 := wallet_update ws.2 w
  let ts := tx_create s2 (fun n =>
    { id := n, user_id := u, transaction_type := TransactionType.FUND,
      currency := some c, amount := some a, created_at := n })
  (Except.ok { user_id := u, currency := c, amount := a,
               new_balance := quantize2 w.balance },
   ts.2)

/-- Body of WalletService.convert_currency after the rate was selected:
compute to_amount = amount * fx_rate (exact decimal multiplication, no
rounding in the service), get-or-create the source wallet, check the balance,
debit and persist (committed), get-or-create the destination wallet, credit
and persist (committed), append the CONVERT transaction. -/
def convert_with_rate (u : String) (c1 c2 : Currency) (a fx : ℚ)
    (s : EngineState) : Except WalletError ConvertResult × EngineState :=
  let toAmount := a * fx
  let fs := get_or_create s u c1
  if fs.1.balance < a then
    (Except.error (WalletError.insufficientBalance fs.1.balance a), fs.2)
  else
    let s2 := wallet_update fs.2 { fs.1 with balance := fs.1.balance - a }
    let ts := get_or_create s2 u c2
    let s3 := wallet_update ts.2 { ts.1 with balance := ts.1.balance + toAmount }
    let tx := tx_create s3 (fun n =>
      { id := n, user_id := u, transaction_type := TransactionType.CONVERT,
        from_currency := some c1, to_currency := some c2,
        from_amount := some a, to_amount := some toAmount,
        fx_rate := some fx, created_at := n })
    (Except.ok { user_id := u, from_currency := c1, to_currency := c2,
                 from_amount := a, to_amount := toAmount, fx_rate := fx },
     tx.2)

/-- WalletService.convert_currency: reject same currency; select the rate by
direction, reading the FXRateService property exactly once into a local
(fx_rate) that is used both for to_amount and for the recorded transaction;
the trailing branch raises the unsupported-pair ValueError. -/
def convert_currency (r : RateState) (u : String) (c1 c2 : Currency) (a : ℚ)
    (s : EngineState) : Except WalletError ConvertResult × EngineState :=
  if c1 = c2 then
    (Except.error WalletError.sameCurrency, s)
  else if c1 = Currency.USD ∧ c2 = Currency.MXN then
    convert_with_rate u c1 c2 a r.usd_to_mxn s
  else if c1 = Currency.MXN ∧ c2 = Currency.USD then
    convert_with_rate u c1 c2 a r.mxn_to_usd s
  else
    (Except.error (WalletError.unsupportedPair c1 c2), s)

/-- Fault-injected convert: identical to convert_currency up to the
destination-side persist, which fails (raises) instead of committing.
Returns the state committed at that point: validation failures and the
insufficient-balance failure leave their usual states; on the fault path the
source-wallet debit was already committed by the first wallet_update (the
repository commits inside update), the destination get_or_create was
committed, and the in-memory credit is lost with the failed persist; no
transaction row was appended. -/
def convert_currency_creditPersistFails (r : RateState) (u : String)
    (c1 c2 : Currency) (a : ℚ) (s : EngineState) : EngineState :=
  if c1 = c2 then s
  else
    let fx := if c1 = Currency.USD ∧ c2 = Currency.MXN then r.usd_to_mxn
              else if c1 = Currency.MXN ∧ c2 = Currency.USD then r.mxn_to_usd
              else 0
    if (c1 = Currency.USD ∧ c2 = Currency.MXN) ∨
       (c1 = Currency.MXN ∧ c2 = Currency.USD) then
      let _ := fx
      let fs := get_or_create s u c1
      if fs.1.balance < a then fs.2
      else
        let s2 := wallet_update fs.2 { fs.1 with balance := fs.1.balance - a }
        let ts := get_or_create s2 u c2
        ts.2
    else s

/-- WalletService.withdraw_funds: get-or-create the wallet (committed), raise
the insufficient-balance ValueError when balance < amount (carrying available
and required), else subtract, persist, and append a WITHDRAW transaction.
As in fund_wallet, the result reports the refreshed committed balance. -/
def withdraw_funds (u : String) (c : Currency) (a : ℚ) (s : EngineState) :
    Except WalletError SingleResult × EngineState :=
  let ws := get_or_create s u c
  if ws.1.balance < a then
    (Except.error (WalletError.insufficientBalance ws.1.balance a), ws.2)
  else
    let w := { ws.1 with balance := ws.1.balance - a }
    let s2 := wallet_update ws.2 w
    let ts := tx_create s2 (fun n =>
      { id := n, user_id := u, transaction_type := TransactionType.WITHDRAW,
        currency := some c, amount := some a, created_at := n })
    (Except.ok { user_id := u, currency := c, amount := a,
                 new_balance := quantize2 w.balance },
     ts.2)

/-- WalletService.get_balances: currency-to-balance pairs of the user's wallets. -/
def get_balances (s : EngineState) (u : String) : List (Currency × ℚ) :=
  (get_all_by_user s u).map (fun w => (w.currency, w.balance))

/-- Insert one transaction into a list already ordered by created_at
descending, placing it after every entry whose created_at is greater or
equal.  Building the whole result this way realizes ORDER BY created_at DESC
over the table scan order: rows with equal created_at keep their table
(insertion) order, because the query orders by created_at only. -/
def insert_created_desc (t : Transaction) : List Transaction → List Transaction
  | [] => [t]
  | x :: xs =>
      if x.created_at < t.created_at then t :: x :: xs
      else x :: insert_created_desc t xs

/-- Stable sort of a transaction list by created_at descending (the embedding
of ORDER BY created_at DESC applied to the rows in table order). -/
def order_by_created_desc (l : List Transaction) : List Transaction :=
  l.foldl (fun acc t => insert_created_desc t acc) []

/-- TransactionRepository.get_by_user over a transaction table: filter by
user, order by created_at descending, and cap the length when a limit is
given.  Python tests the limit for truthiness (if limit:), so a zero limit is
treated like an absent one and returns everything. -/
def get_by_user (log : List Transaction) (u : String) (limit : Option Nat) :
    List Transaction :=
  let rows := order_by_created_desc (log.filter (fun t => t.user_id == u))
  match limit with
  | none => rows
  | some 0 => rows
  | some (k + 1) => rows.take (k + 1)

/-- WalletService.get_transactions: passthrough to the repository query. -/
def get_transactions (s : EngineState) (u : String) (limit : Option Nat) :
    List Transaction :=
  get_by_user s.txs u limit

/-- Request validation performed by the Pydantic schemas at the API boundary
(FundRequest / ConvertRequest / WithdrawRequest in src/src/schemas/wallet.py):
amount must be strictly positive and have at most 2 decimal places. -/
def valid_request_amount (a : ℚ) : Bool :=
  decide (0 < a) && ((a * 100).den == 1)

/-- Fund operation as reachable through the API route: the request schema
rejects amounts failing validation with a 422 before the service runs;
otherwise WalletService.fund_wallet is invoked. -/
def fund_endpoint (u : String) (c : Currency) (a : ℚ) (s : EngineState) :
    Except WalletError SingleResult × EngineState :=
  if valid_request_amount a then fund_wallet u c a s
  else (Except.error WalletError.validationError, s)

/-- Round-half-to-even of a rational to the nearest integer, the rule of the
Python built-in round. -/
def roundHalfEvenZ (q : ℚ) : ℤ :=
  if Int.fract q < 1 / 2 then ⌊q⌋
  else if 1 / 2 < Int.fract q then ⌊q⌋ + 1
  else if 2 ∣ ⌊q⌋ then ⌊q⌋ else ⌊q⌋ + 1

/-- Python round(x, 4): round half to even at 4 fractional digits, as used in
FXRateService for the derived MXN to USD rate. -/
def pyRound4 (q : ℚ) : ℚ :=
  ((roundHalfEvenZ (q * 10000) : ℤ) : ℚ) / 10000

/-- Outcome of one refresh tick of FXRateService._update_api_rates, covering
every exit of the fetch-and-parse block in src/src/services/fx_rates.py:
requests.get raising (network error), raise_for_status raising (non-success
status), the rates key or the MXN entry missing from the body, float(...)
raising on a malformed value, or a successfully parsed rate. -/
inductive FetchOutcome : Type
  | networkError : FetchOutcome
  | httpStatusError : FetchOutcome
  | missingRatesKey : FetchOutcome
  | malformedValue : FetchOutcome
  | success : ℚ → FetchOutcome
deriving DecidableEq

/-- True on every non-success refresh outcome. -/
def FetchOutcome.isFailure : FetchOutcome → Bool
  | FetchOutcome.success _ => false
  | _ => true

/-- FXRateService._update_api_rates as run through update_rates: every
failure path is caught (RequestException, KeyError and ValueError inside
_update_api_rates, anything else by the try/except Exception around the tick
in update_rates), so a tick is a total state transformer and no exception
reaches any caller; failures log and leave both held rates unchanged.  On a
parsed rate v the code sets usd_to_mxn to v and mxn_to_usd to
round(1 / v, 4); when v is zero the division raises after the first
assignment and is swallowed by update_rates, leaving mxn_to_usd unchanged. -/
def update_api_rates (o : FetchOutcome) (r : RateState) : RateState :=
  match o with
  | FetchOutcome.success v =>
      if v = 0 then { r with usd_to_mxn := v }
      else { usd_to_mxn := v, mxn_to_usd := pyRound4 (1 / v) }
  | _ => r

/-- Operation alphabet of the wallet engine, one constructor per public
mutating WalletService operation; a convert carries the rate pair the
FXRateService holds at its call time. -/
inductive Op : Type
  | fund : String → Currency → ℚ → Op
  | withdraw : String → Currency → ℚ → Op
  | convert : String → Currency → Currency → ℚ → RateState → Op
deriving DecidableEq

/-- Committed state after one operation, whether it succeeded or raised (a
raise leaves whatever the repositories had committed up to that point). -/
def applyOp (s : EngineState) (op : Op) : EngineState :=
  match op with
  | Op.fund u c a => (fund_wallet u c a s).2
  | Op.withdraw u c a => (withdraw_funds u c a s).2
  | Op.convert u c1 c2 a r => (convert_currency r u c1 c2 a s).2

/-- Committed state after a sequence of operations. -/
def applyOps (s : EngineState) (ops : List Op) : EngineState :=
  ops.foldl applyOp s

/-- Positivity of an operation's amount, together with non-negativity of the
rate pair a convert snapshots.  Every configured rate mode yields
non-negative rates: the static defaults are 18.70 and 0.053, the random
candidate list holds positive quotes, and the api mode stores a fetched
positive quote and its rounded inverse. -/
def OpWellFormed : Op → Prop
  | Op.fund _ _ a => 0 < a
  | Op.withdraw _ _ a => 0 < a
  | Op.convert _ _ _ a r => 0 < a ∧ 0 ≤ r.usd_to_mxn ∧ 0 ≤ r.mxn_to_usd

instance : DecidablePred OpWellFormed := by
  intro op
  cases op <;> simp only [OpWellFormed] <;> infer_instance

/-- Non-negativity of every wallet balance in a state. -/
def NonNegState (s : EngineState) : Prop :=
  ∀ w ∈ s.wallets, 0 ≤ w.balance

instance : DecidablePred NonNegState := by
  intro s
  unfold NonNegState
  infer_instance

/-- Non-increasing creation-time order between two transactions (the second
was created no later than the first). -/
def created_ge (a b : Transaction) : Prop :=
  b.created_at ≤ a.created_at

instance : ∀ a b : Transaction, Decidable (created_ge a b) := by
  intro a b
  unfold created_ge
  infer_instance

/-- Modelled from the spec: insertion step for the ordering the spec
prescribes for byUser, creation time descending with ties broken by identity
descending.  This definition follows the spec's words only and exists to be
compared with get_by_user, which is translated from the repository code. -/
def insert_spec_desc (t : Transaction) : List Transaction → List Transaction
  | [] => [t]
  | x :: xs =>
      if x.created_at < t.created_at ∨
         (x.created_at = t.created_at ∧ x.id < t.id) then t :: x :: xs
      else x :: insert_spec_desc t xs

/-- Modelled from the spec: byUser as the spec words it — the user's
transactions ordered by creation time descending, ties broken by identity
descending, capped by a positive limit, everything for an absent or zero
limit. -/
def get_by_user_spec_order (log : List Transaction) (u : String)
    (limit : Option Nat) : List Transaction :=
  let rows := (log.filter (fun t => t.user_id == u)).foldl
    (fun acc t => insert_spec_desc t acc) []
  match limit with
  | none => rows
  | some 0 => rows
  | some (k + 1) => rows.take (k + 1)

/-- Rate value the branch structure of convert_currency selects for a
currency pair (0 stands for the unreachable unsupported branch). -/
def effective_rate (r : RateState) (c1 c2 : Currency) : ℚ :=
  if c1 = Currency.USD ∧ c2 = Currency.MXN then r.usd_to_mxn
  else if c1 = Currency.MXN ∧ c2 = Currency.USD then r.mxn_to_usd
  else 0

theorem quantize2_nonneg (q : ℚ) (hq : 0 ≤ q) : 0 ≤ quantize2 q := by
  unfold quantize2
  apply div_nonneg _ (by norm_num)
  have : (0 : ℚ) ≤ q * 100 + 1 / 2 := by positivity
  exact_mod_cast Int.floor_nonneg.mpr this

theorem scale2_cast (q : ℚ) (h : Scale2 q) : ((q * 100).num : ℚ) = q * 100 := by
  have h1 := Rat.num_div_den (q * 100)
  unfold Scale2 at h
  rw [h] at h1
  simpa using h1

theorem scale4_cast (q : ℚ) (h : Scale4 q) :
    ((q * 10000).num : ℚ) = q * 10000 := by
  have h1 := Rat.num_div_den (q * 10000)
  unfold Scale4 at h
  rw [h] at h1
  simpa using h1

theorem quantize2_eq_self (q : ℚ) (h : Scale2 q) : quantize2 q = q := by
  have hc := scale2_cast q h
  have h0 : ⌊(1 / 2 : ℚ)⌋ = 0 := by norm_num
  unfold quantize2
  rw [← hc, Int.floor_int_add, h0, add_zero, hc, mul_div_assoc]
  norm_num

theorem quantize4_eq_self (q : ℚ) (h : Scale4 q) : quantize4 q = q := by
  have hc := scale4_cast q h
  have h0 : ⌊(1 / 2 : ℚ)⌋ = 0 := by norm_num
  unfold quantize4
  rw [← hc, Int.floor_int_add, h0, add_zero, hc, mul_div_assoc]
  norm_num

theorem quantize2_add_scale2 (b x : ℚ) (hb : Scale2 b) :
    quantize2 (b + x) = b + quantize2 x := by
  have hc := scale2_cast b hb
  unfold quantize2
  have harg : (b + x) * 100 + 1 / 2 =
      ((b * 100).num : ℚ) + (x * 100 + 1 / 2) := by
    rw [hc]
    ring
  rw [harg, Int.floor_int_add]
  push_cast
  rw [hc]
  ring

theorem scale2_zero : Scale2 0 := by
  unfold Scale2
  norm_num

theorem scale2_add (a b : ℚ) (ha : Scale2 a) (hb : Scale2 b) :
    Scale2 (a + b) := by
  unfold Scale2
  have h : (a + b) * 100 = (((a * 100).num + (b * 100).num : ℤ) : ℚ) := by
    push_cast
    rw [scale2_cast a ha, scale2_cast b hb]
    ring
  rw [h, Rat.den_intCast]

theorem scale2_sub (a b : ℚ) (ha : Scale2 a) (hb : Scale2 b) :
    Scale2 (a - b) := by
  unfold Scale2
  have h : (a - b) * 100 = (((a * 100).num - (b * 100).num : ℤ) : ℚ) := by
    push_cast
    rw [scale2_cast a ha, scale2_cast b hb]
    ring
  rw [h, Rat.den_intCast]

theorem scale2_balanceOf (s : EngineState) (u : String) (c : Currency)
    (hs : Scale2State s) : Scale2 (balanceOf s u c) := by
  unfold balanceOf
  cases hw : get_by_user_and_currency s u c with
  | none => exact scale2_zero
  | some w => exact hs w (List.mem_of_find?_eq_some hw)

theorem wallet_matches_iff {u : String} {c : Currency} {w : Wallet} :
    wallet_matches u c w = true ↔ w.user_id = u ∧ w.currency = c := by
  simp [wallet_matches]

theorem wallet_matches_self (u : String) (c : Currency) (b : ℚ) :
    wallet_matches u c ⟨u, c, b⟩ = true := by
  simp [wallet_matches]

theorem find?_map_row_same (w : Wallet) (l : List Wallet) :
    (l.map (wallet_row_update w)).find? (wallet_matches w.user_id w.currency) =
      (l.find? (wallet_matches w.user_id w.currency)).map (fun _ => w) := by
  induction l with
  | nil => rfl
  | cons x xs ih =>
    by_cases h : wallet_matches w.user_id w.currency x = true
    · have hw : wallet_matches w.user_id w.currency w = true := by
        cases w; exact wallet_matches_self _ _ _
      simp [wallet_row_update, h, hw, List.find?_cons]
    · simp [wallet_row_update, h, List.find?_cons, ih]

theorem find?_map_row_other (w : Wallet) (u : String) (c : Currency)
    (h : ¬(u = w.user_id ∧ c = w.currency)) (l : List Wallet) :
    (l.map (wallet_row_update w)).find? (wallet_matches u c) =
      l.find? (wallet_matches u c) := by
  induction l with
  | nil => rfl
  | cons x xs ih =>
    by_cases hx : wallet_matches w.user_id w.currency x = true
    · have hxw : x.user_id = w.user_id ∧ x.currency = w.currency :=
        wallet_matches_iff.mp hx
      have hwu : wallet_matches u c w = false := by
        rw [Bool.eq_false_iff]
        intro ht
        rcases wallet_matches_iff.mp ht with ⟨h1, h2⟩
        exact h ⟨h1.symm, h2.symm⟩
      have hxu : wallet_matches u c x = false := by
        rw [Bool.eq_false_iff]
        intro ht
        rcases wallet_matches_iff.mp ht with ⟨h1, h2⟩
        exact h ⟨h1.symm.trans hxw.1, h2.symm.trans hxw.2⟩
      simp [wallet_row_update, hx, List.find?_cons, hwu, hxu, ih]
    · simp [wallet_row_update, hx, List.find?_cons, ih]

theorem goc_fst (s : EngineState) (u : String) (c : Currency) :
    (get_or_create s u c).1 = ⟨u, c, balanceOf s u c⟩ := by
  unfold get_or_create balanceOf
  cases h : get_by_user_and_currency s u c with
  | none => rfl
  | some w =>
    have hm := List.find?_some (p := wallet_matches u c) h
    rcases wallet_matches_iff.mp hm with ⟨h1, h2⟩
    cases w
    simp at h1 h2
    simp [h1, h2]

theorem goc_txs (s : EngineState) (u : String) (c : Currency) :
    (get_or_create s u c).2.txs = s.txs := by
  unfold get_or_create
  cases h : get_by_user_and_currency s u c <;> rfl

theorem goc_next_tx_id (s : EngineState) (u : String) (c : Currency) :
    (get_or_create s u c).2.next_tx_id = s.next_tx_id := by
  unfold get_or_create
  cases h : get_by_user_and_currency s u c <;> rfl

theorem goc_lookup_same (s : EngineState) (u : String) (c : Currency) :
    get_by_user_and_currency (get_or_create s u c).2 u c =
      some ⟨u, c, balanceOf s u c⟩ := by
  unfold get_or_create balanceOf
  cases h : get_by_user_and_currency s u c with
  | none =>
    unfold get_by_user_and_currency at h ⊢
    simp [wallet_create, List.find?_append, h, wallet_matches_self]
  | some w =>
    have hm := List.find?_some (p := wallet_matches u c) h
    rcases wallet_matches_iff.mp hm with ⟨h1, h2⟩
    cases w
    simp at h1 h2
    subst h1; subst h2
    simpa [get_by_user_and_currency] using h

theorem goc_lookup_other (s : EngineState) (u : String) (c : Currency)
    (u' : String) (c' : Currency) (h : ¬(u' = u ∧ c' = c)) :
    get_by_user_and_currency (get_or_create s u c).2 u' c' =
      get_by_user_and_currency s u' c' := by
  unfold get_or_create
  cases hw : get_by_user_and_currency s u c with
  | some w => rfl
  | none =>
    have hnm : wallet_matches u' c' (⟨u, c, 0⟩ : Wallet) = false := by
      rw [Bool.eq_false_iff]
      intro ht
      rcases wallet_matches_iff.mp ht with ⟨h1, h2⟩
      exact h ⟨h1.symm, h2.symm⟩
    unfold get_by_user_and_currency
    simp [wallet_create, List.find?_append, hnm]

theorem goc_balanceOf (s : EngineState) (u : String) (c : Currency)
    (u' : String) (c' : Currency) :
    balanceOf (get_or_create s u c).2 u' c' = balanceOf s u' c' := by
  by_cases h : u' = u ∧ c' = c
  · rcases h with ⟨h1, h2⟩
    subst h1; subst h2
    unfold balanceOf
    rw [goc_lookup_same]
    unfold balanceOf
    cases hw : get_by_user_and_currency s u' c' with
    | none => simp [balanceOf, hw]
    | some w =>
      have hm := List.find?_some (p := wallet_matches u' c') hw
      rcases wallet_matches_iff.mp hm with ⟨ha, hb⟩
      simp [balanceOf, hw]
  · unfold balanceOf
    rw [goc_lookup_other s u c u' c' h]

theorem wallet_update_txs (s : EngineState) (w : Wallet) :
    (wallet_update s w).txs = s.txs := rfl

theorem wallet_update_next_tx_id (s : EngineState) (w : Wallet) :
    (wallet_update s w).next_tx_id = s.next_tx_id := rfl

theorem wallet_update_balanceOf_same (s : EngineState) (u : String)
    (c : Currency) (b : ℚ) (h : (get_by_user_and_currency s u c).isSome) :
    balanceOf (wallet_update s ⟨u, c, b⟩) u c = quantize2 b := by
  unfold balanceOf get_by_user_and_currency wallet_update
  dsimp only
  have := find?_map_row_same ⟨u, c, quantize2 b⟩ s.wallets
  simp only at this
  rw [this]
  unfold get_by_user_and_currency at h
  cases hw : s.wallets.find? (wallet_matches u c) with
  | none => rw [hw] at h; simp at h
  | some w => simp

theorem wallet_update_balanceOf_other (s : EngineState) (u : String)
    (c : Currency) (b : ℚ) (u' : String) (c' : Currency)
    (h : ¬(u' = u ∧ c' = c)) :
    balanceOf (wallet_update s ⟨u, c, b⟩) u' c' = balanceOf s u' c' := by
  unfold balanceOf get_by_user_and_currency wallet_update
  dsimp only
  rw [find?_map_row_other ⟨u, c, quantize2 b⟩ u' c' h s.wallets]

theorem tx_create_wallets (s : EngineState) (f : Nat → Transaction) :
    (tx_create s f).2.wallets = s.wallets := rfl

theorem tx_create_txs (s : EngineState) (f : Nat → Transaction) :
    (tx_create s f).2.txs = s.txs ++ [tx_quantize (f s.next_tx_id)] := rfl

theorem tx_create_balanceOf (s : EngineState) (f : Nat → Transaction)
    (u : String) (c : Currency) :
    balanceOf (tx_create s f).2 u c = balanceOf s u c := rfl

theorem nonneg_balanceOf (s : EngineState) (h : NonNegState s)
    (u : String) (c : Currency) : 0 ≤ balanceOf s u c := by
  unfold balanceOf
  cases hw : get_by_user_and_currency s u c with
  | none => simp
  | some w => exact h w (List.mem_of_find?_eq_some hw)

theorem nonneg_wallet_update (s : EngineState) (w : Wallet)
    (hs : NonNegState s) (hw : 0 ≤ w.balance) :
    NonNegState (wallet_update s w) := by
  intro x hx
  rcases List.mem_map.mp hx with ⟨y, hy, hxy⟩
  unfold wallet_row_update at hxy
  by_cases hm : wallet_matches w.user_id w.currency y = true
  · rw [if_pos hm] at hxy
    exact hxy ▸ quantize2_nonneg w.balance hw
  · rw [if_neg hm] at hxy
    exact hxy ▸ hs y hy

theorem nonneg_goc (s : EngineState) (u : String) (c : Currency)
    (hs : NonNegState s) : NonNegState (get_or_create s u c).2 := by
  unfold get_or_create
  cases hw : get_by_user_and_currency s u c with
  | some w => exact hs
  | none =>
    intro x hx
    rcases List.mem_append.mp hx with hl | hr
    · exact hs x hl
    · rcases List.mem_singleton.mp hr with rfl
      simp

theorem nonneg_tx_create (s : EngineState) (f : Nat → Transaction)
    (hs : NonNegState s) : NonNegState (tx_create s f).2 := hs

theorem nonneg_fund_wallet (s : EngineState) (u : String) (c : Currency)
    (a : ℚ) (hs : NonNegState s) (ha : 0 ≤ a) :
    NonNegState (fund_wallet u c a s).2 := by
  unfold fund_wallet
  apply nonneg_tx_create
  apply nonneg_wallet_update _ _ (nonneg_goc s u c hs)
  rw [goc_fst]
  exact add_nonneg (nonneg_balanceOf s hs u c) ha

theorem nonneg_withdraw_funds (s : EngineState) (u : String) (c : Currency)
    (a : ℚ) (hs : NonNegState s) :
    NonNegState (withdraw_funds u c a s).2 := by
  unfold withdraw_funds
  dsimp only
  split
  · exact nonneg_goc s u c hs
  · next hlt =>
    apply nonneg_tx_create
    apply nonneg_wallet_update _ _ (nonneg_goc s u c hs)
    rw [goc_fst] at hlt ⊢
    simpa using le_of_not_lt hlt

theorem nonneg_convert_with_rate (s : EngineState) (u : String)
    (c1 c2 : Currency) (a fx : ℚ) (hs : NonNegState s) (ha : 0 ≤ a)
    (hfx : 0 ≤ fx) : NonNegState (convert_with_rate u c1 c2 a fx s).2 := by
  unfold convert_with_rate
  dsimp only
  split
  · exact nonneg_goc s u c1 hs
  · next hlt =>
    apply nonneg_tx_create
    have h2 : NonNegState (wallet_update (get_or_create s u c1).2
        { (get_or_create s u c1).1 with
          balance := (get_or_create s u c1).1.balance - a }) := by
      apply nonneg_wallet_update _ _ (nonneg_goc s u c1 hs)
      rw [goc_fst] at hlt ⊢
      simpa using le_of_not_lt hlt
    apply nonneg_wallet_update _ _ (nonneg_goc _ u c2 h2)
    rw [goc_fst]
    exact add_nonneg (nonneg_balanceOf _ h2 u c2) (mul_nonneg ha hfx)

theorem nonneg_applyOp (s : EngineState) (op : Op) (hs : NonNegState s)
    (hop : OpWellFormed op) : NonNegState (applyOp s op) := by
  cases op with
  | fund u c a => exact nonneg_fund_wallet s u c a hs (le_of_lt hop)
  | withdraw u c a => exact nonneg_withdraw_funds s u c a hs
  | convert u c1 c2 a r =>
    rcases hop with ⟨ha, h1, h2⟩
    show NonNegState (convert_currency r u c1 c2 a s).2
    unfold convert_currency
    split
    · exact hs
    · split
      · exact nonneg_convert_with_rate s u c1 c2 a r.usd_to_mxn hs (le_of_lt ha) h1
      · split
        · exact nonneg_convert_with_rate s u c1 c2 a r.mxn_to_usd hs (le_of_lt ha) h2
        · exact hs

theorem nonneg_goc_balance (s : EngineState) (u : String) (c : Currency)
    (hs : NonNegState s) : 0 ≤ (get_or_create s u c).1.balance := by
  rw [goc_fst]
  exact nonneg_balanceOf s hs u c

theorem insert_created_desc_perm (t : Transaction) (l : List Transaction) :
    List.Perm (insert_created_desc t l) (t :: l) := by
  induction l with
  | nil => exact List.Perm.refl _
  | cons x xs ih =>
    unfold insert_created_desc
    split
    · exact List.Perm.refl _
    · exact (List.Perm.cons x ih).trans (List.Perm.swap t x xs)

theorem insert_created_desc_sorted (t : Transaction) (l : List Transaction)
    (h : l.Pairwise created_ge) :
    (insert_created_desc t l).Pairwise created_ge := by
  induction l with
  | nil => simp [insert_created_desc]
  | cons x xs ih =>
    rcases List.pairwise_cons.mp h with ⟨hxall, hxs⟩
    unfold insert_created_desc
    split
    · next hlt =>
      refine List.pairwise_cons.mpr ⟨?_, h⟩
      intro y hy
      rcases List.mem_cons.mp hy with rfl | hyxs
      · exact le_of_lt hlt
      · exact le_trans (hxall y hyxs) (le_of_lt hlt)
    · next hge =>
      refine List.pairwise_cons.mpr ⟨?_, ih hxs⟩
      intro y hy
      rcases List.mem_cons.mp ((insert_created_desc_perm t xs).mem_iff.mp hy)
        with rfl | hyxs
      · exact le_of_not_lt hge
      · exact hxall y hyxs

theorem order_core_perm (l acc : List Transaction) :
    List.Perm (l.foldl (fun acc t => insert_created_desc t acc) acc)
      (acc ++ l) := by
  induction l generalizing acc with
  | nil => simp
  | cons t ts ih =>
    have h1 := ih (insert_created_desc t acc)
    have h2 : List.Perm (insert_created_desc t acc ++ ts) ((t :: acc) ++ ts) :=
      (insert_created_desc_perm t acc).append_right ts
    have h3 : List.Perm ((t :: acc) ++ ts) (acc ++ t :: ts) := by
      rw [List.cons_append]
      exact List.perm_middle.symm
    exact (h1.trans (h2.trans h3))

theorem order_core_sorted (l acc : List Transaction)
    (h : acc.Pairwise created_ge) :
    (l.foldl (fun acc t => insert_created_desc t acc) acc).Pairwise
      created_ge := by
  induction l generalizing acc with
  | nil => exact h
  | cons t ts ih => exact ih _ (insert_created_desc_sorted t acc h)

theorem order_by_created_desc_perm (l : List Transaction) :
    List.Perm (order_by_created_desc l) l := by
  have := order_core_perm l []
  simpa [order_by_created_desc] using this

theorem order_by_created_desc_sorted (l : List Transaction) :
    (order_by_created_desc l).Pairwise created_ge :=
  order_core_sorted l [] List.Pairwise.nil

/-- C3: starting from any state with only non-negative wallet balances, any
sequence of fund, withdraw and convert operations whose amounts are positive
(and whose convert rate snapshots are the non-negative pairs every configured
rate mode produces) leaves every wallet balance non-negative; since the
sequence is universally quantified, this holds after each prefix, i.e. after
each operation.  Failed operations are included: applyOp is the committed
state whether the operation succeeded or raised. -/
theorem claim_C3_balances_nonneg (ops : List Op) (s : EngineState)
    (hs : NonNegState s) (hops : ∀ op ∈ ops, OpWellFormed op) :
    NonNegState (applyOps s ops) := by
  induction ops generalizing s with
  | nil => exact hs
  | cons op ops ih =>
    exact ih (applyOp s op)
      (nonneg_applyOp s op hs (hops op (List.mem_cons_self op ops)))
      (fun o ho => hops o (List.mem_cons_of_mem op ho))

/-- Witness for C3: the hypotheses are satisfiable; a concrete run of
fund, convert and withdraw from the empty store stays non-negative. -/
theorem claim_C3_balances_nonneg_witness :
    NonNegState (applyOps ⟨[], [], 1⟩
      [Op.fund "u1" Currency.USD 10,
       Op.convert "u1" Currency.USD Currency.MXN 5 ⟨187/10, 53/1000⟩,
       Op.withdraw "u1" Currency.USD 2]) := by
  apply claim_C3_balances_nonneg
  · intro w hw
    simp at hw
  · intro op hop
    simp only [List.mem_cons, List.not_mem_nil, or_false] at hop
    rcases hop with rfl | rfl | rfl <;> unfold OpWellFormed <;> norm_num

theorem convert_with_rate_ok (s : EngineState) (u : String)
    (c1 c2 : Currency) (a fx : ℚ) (res : ConvertResult)
    (h : (convert_with_rate u c1 c2 a fx s).1 = Except.ok res) :
    a ≤ balanceOf s u c1 ∧ res = ⟨u, c1, c2, a, a * fx, fx⟩ := by
  unfold convert_with_rate at h
  dsimp only at h
  rw [goc_fst s u c1] at h
  by_cases hlt : balanceOf s u c1 < a
  · rw [if_pos hlt] at h
    exact absurd h (by simp)
  · rw [if_neg hlt] at h
    refine ⟨le_of_not_lt hlt, ?_⟩
    simp only [Except.ok.injEq] at h
    exact h.symm

theorem convert_with_rate_facts (s : EngineState) (u : String)
    (c1 c2 : Currency) (a fx : ℚ) (hne : c1 ≠ c2)
    (hbal : a ≤ balanceOf s u c1) :
    (convert_with_rate u c1 c2 a fx s).1 =
      Except.ok ⟨u, c1, c2, a, a * fx, fx⟩ ∧
    balanceOf (convert_with_rate u c1 c2 a fx s).2 u c1 =
      quantize2 (balanceOf s u c1 - a) ∧
    balanceOf (convert_with_rate u c1 c2 a fx s).2 u c2 =
      quantize2 (balanceOf s u c2 + a * fx) ∧
    (convert_with_rate u c1 c2 a fx s).2.txs = s.txs ++
      [⟨s.next_tx_id, u, TransactionType.CONVERT, none, none, some c1,
        some c2, some (quantize2 a), some (quantize2 (a * fx)),
        some (quantize4 fx), s.next_tx_id⟩] := by
  have h12 : ¬(u = u ∧ c2 = c1) := fun hc => hne hc.2.symm
  have h21 : ¬(u = u ∧ c1 = c2) := fun hc => hne hc.2
  unfold convert_with_rate
  dsimp only
  rw [goc_fst s u c1]
  dsimp only
  rw [if_neg (not_lt.mpr hbal)]
  dsimp only
  set b1 := balanceOf s u c1 with hb1def
  set s2 := wallet_update (get_or_create s u c1).2 ⟨u, c1, b1 - a⟩ with hs2def
  have hsome1 : (get_by_user_and_currency (get_or_create s u c1).2 u c1).isSome := by
    rw [goc_lookup_same]
    rfl
  have e1 : balanceOf s2 u c1 = quantize2 (b1 - a) :=
    wallet_update_balanceOf_same _ u c1 _ hsome1
  have e2 : balanceOf s2 u c2 = balanceOf s u c2 := by
    rw [hs2def, wallet_update_balanceOf_other _ u c1 (b1 - a) u c2 h12,
      goc_balanceOf]
  rw [goc_fst s2 u c2]
  dsimp only
  set b2 := balanceOf s2 u c2 with hb2def
  set s3 := wallet_update (get_or_create s2 u c2).2 ⟨u, c2, b2 + a * fx⟩
    with hs3def
  have hsome2 : (get_by_user_and_currency (get_or_create s2 u c2).2 u c2).isSome := by
    rw [goc_lookup_same]
    rfl
  have e3 : balanceOf s3 u c2 = quantize2 (b2 + a * fx) :=
    wallet_update_balanceOf_same _ u c2 _ hsome2
  have e4 : balanceOf s3 u c1 = quantize2 (b1 - a) := by
    rw [hs3def, wallet_update_balanceOf_other _ u c2 (b2 + a * fx) u c1 h21,
      goc_balanceOf, e1]
  refine ⟨rfl, ?_, ?_, ?_⟩
  · rw [tx_create_balanceOf]
    exact e4
  · rw [tx_create_balanceOf, e3, e2]
  · rw [tx_create_txs]
    simp only [hs3def, hs2def, wallet_update_txs, goc_txs,
      wallet_update_next_tx_id, goc_next_tx_id, tx_quantize, Option.map_some',
      Option.map_none']

theorem convert_currency_usd_mxn (r : RateState) (u : String) (a : ℚ)
    (s : EngineState) :
    convert_currency r u Currency.USD Currency.MXN a s =
      convert_with_rate u Currency.USD Currency.MXN a r.usd_to_mxn s := by
  simp [convert_currency]

theorem convert_currency_mxn_usd (r : RateState) (u : String) (a : ℚ)
    (s : EngineState) :
    convert_currency r u Currency.MXN Currency.USD a s =
      convert_with_rate u Currency.MXN Currency.USD a r.mxn_to_usd s := by
  simp [convert_currency]

theorem convert_with_rate_not_unsupported (s : EngineState) (u : String)
    (c1 c2 : Currency) (a fx : ℚ) (x y : Currency) :
    (convert_with_rate u c1 c2 a fx s).1 ≠
      Except.error (WalletError.unsupportedPair x y) := by
  unfold convert_with_rate
  dsimp only
  split <;> simp

/-- Counterexample to C6 as stated: with two transactions of one user
sharing a created_at tick (ids 1 and 2), the repository query — which orders
by created_at only — returns them in table order, id 1 first, while the
claimed identity-descending tie-break requires id 2 first. -/
theorem claim_C6_tie_order_cex :
    get_by_user
        [⟨1, "u", TransactionType.FUND, some Currency.USD, none, none, none,
          none, none, none, 5⟩,
         ⟨2, "u", TransactionType.FUND, some Currency.USD, none, none, none,
          none, none, none, 5⟩] "u" none ≠
      get_by_user_spec_order
        [⟨1, "u", TransactionType.FUND, some Currency.USD, none, none, none,
          none, none, none, 5⟩,
         ⟨2, "u", TransactionType.FUND, some Currency.USD, none, none, none,
          none, none, none, 5⟩] "u" none ∧
    get_by_user
        [⟨1, "u", TransactionType.FUND, some Currency.USD, none, none, none,
          none, none, none, 5⟩,
         ⟨2, "u", TransactionType.FUND, some Currency.USD, none, none, none,
          none, none, none, 5⟩] "u" none =
      [⟨1, "u", TransactionType.FUND, some Currency.USD, none, none, none,
        none, none, none, 5⟩,
       ⟨2, "u", TransactionType.FUND, some Currency.USD, none, none, none,
        none, none, none, 5⟩] := by
  constructor
  · decide
  · decide

/-- C6 (amended): get_by_user returns exactly the user's transactions in
non-increasing creation-time order; rows with equal created_at surface in
table (insertion) order — the query orders by created_at only and applies no
identity tie-break — a positive limit k yields the first k rows of the full
result (the k most recent), and an absent or zero limit yields all of them
(Python treats a zero limit as falsy). -/
theorem claim_C6_get_by_user_order (log : List Transaction) (u : String) :
    (get_by_user log u none).Pairwise created_ge ∧
    List.Perm (get_by_user log u none)
      (log.filter (fun t => t.user_id == u)) ∧
    (∀ k : Nat, 0 < k →
      get_by_user log u (some k) = (get_by_user log u none).take k) ∧
    get_by_user log u (some 0) = get_by_user log u none := by
  refine ⟨?_, ?_, ?_, rfl⟩
  · exact order_by_created_desc_sorted _
  · exact order_by_created_desc_perm _
  · intro k hk
    cases k with
    | zero => exact absurd hk (lt_irrefl 0)
    | succ k => rfl

/-- Witness for C6 (amended): the positive-limit hypothesis is satisfiable;
at limit 1 the query returns the head of the unlimited result. -/
theorem claim_C6_get_by_user_order_witness :
    get_by_user
        [⟨1, "w", TransactionType.FUND, some Currency.USD, none, none, none,
          none, none, none, 3⟩,
         ⟨2, "w", TransactionType.FUND, some Currency.USD, none, none, none,
          none, none, none, 4⟩] "w" (some 1) =
      (get_by_user
        [⟨1, "w", TransactionType.FUND, some Currency.USD, none, none, none,
          none, none, none, 3⟩,
         ⟨2, "w", TransactionType.FUND, some Currency.USD, none, none, none,
          none, none, none, 4⟩] "w" none).take 1 :=
  (claim_C6_get_by_user_order _ "w").2.2.1 1 (by decide)

theorem fund_wallet_facts (u : String) (c : Currency) (a : ℚ)
    (s : EngineState) :
    (fund_wallet u c a s).1 =
      Except.ok ⟨u, c, a, quantize2 (balanceOf s u c + a)⟩ ∧
    balanceOf (fund_wallet u c a s).2 u c =
      quantize2 (balanceOf s u c + a) ∧
    (∀ u' c', ¬(u' = u ∧ c' = c) →
      balanceOf (fund_wallet u c a s).2 u' c' = balanceOf s u' c') ∧
    (fund_wallet u c a s).2.txs = s.txs ++
      [⟨s.next_tx_id, u, TransactionType.FUND, some c, some (quantize2 a),
        none, none, none, none, none, s.next_tx_id⟩] := by
  unfold fund_wallet
  dsimp only
  rw [goc_fst s u c]
  dsimp only
  have hsome : (get_by_user_and_currency (get_or_create s u c).2 u c).isSome := by
    rw [goc_lookup_same]
    rfl
  refine ⟨rfl, ?_, ?_, ?_⟩
  · rw [tx_create_balanceOf]
    exact wallet_update_balanceOf_same _ u c _ hsome
  · intro u' c' hne
    rw [tx_create_balanceOf,
      wallet_update_balanceOf_other _ u c _ u' c' hne, goc_balanceOf]
  · rw [tx_create_txs]
    simp only [wallet_update_txs, goc_txs, wallet_update_next_tx_id,
      goc_next_tx_id, tx_quantize, Option.map_some', Option.map_none']

/-- C2: a successful convert with rate r (the provider pair's value for the
direction) debits the source wallet by exactly the amount, credits the
destination wallet by round(amount x r, 2 fractional digits) — the
Numeric(20, 2) storage rounding applied when the credited balance is
committed, half away from zero as the PostgreSQL numeric cast rounds — and
appends exactly one convert transaction whose fx_rate equals r.  Disclosed
hypotheses matching the program's data model: the stored balances and the
amount sit at the 2dp column/validation scale, and the rate at the declared
4dp fx_rate scale (true of the static defaults 18.70 and 0.053, the random
candidates, and the 4-digit rounded inverse). -/
theorem claim_C2_convert_conservation (r : RateState) (u : String)
    (c1 c2 : Currency) (a : ℚ) (s : EngineState) (hne : c1 ≠ c2)
    (hbal : a ≤ balanceOf s u c1) (hs : Scale2State s) (ha : Scale2 a)
    (hr : Scale4 (effective_rate r c1 c2)) :
    (convert_currency r u c1 c2 a s).1 =
      Except.ok ⟨u, c1, c2, a, a * effective_rate r c1 c2,
        effective_rate r c1 c2⟩ ∧
    balanceOf (convert_currency r u c1 c2 a s).2 u c1 =
      balanceOf s u c1 - a ∧
    balanceOf (convert_currency r u c1 c2 a s).2 u c2 =
      balanceOf s u c2 + quantize2 (a * effective_rate r c1 c2) ∧
    (convert_currency r u c1 c2 a s).2.txs = s.txs ++
      [⟨s.next_tx_id, u, TransactionType.CONVERT, none, none, some c1,
        some c2, some a, some (quantize2 (a * effective_rate r c1 c2)),
        some (effective_rate r c1 c2), s.next_tx_id⟩] := by
  cases c1 <;> cases c2
  · exact absurd rfl hne
  · have heff : effective_rate r Currency.USD Currency.MXN = r.usd_to_mxn := by
      simp [effective_rate]
    rw [convert_currency_usd_mxn, heff]
    rw [heff] at hr
    have hf := convert_with_rate_facts s u Currency.USD Currency.MXN a
      r.usd_to_mxn hne hbal
    have hq1 : quantize2 (balanceOf s u Currency.USD - a) =
        balanceOf s u Currency.USD - a :=
      quantize2_eq_self _
        (scale2_sub _ _ (scale2_balanceOf s u Currency.USD hs) ha)
    have hq2 := quantize2_add_scale2 (balanceOf s u Currency.MXN)
      (a * r.usd_to_mxn) (scale2_balanceOf s u Currency.MXN hs)
    have hqa : quantize2 a = a := quantize2_eq_self a ha
    have hqr : quantize4 r.usd_to_mxn = r.usd_to_mxn := quantize4_eq_self _ hr
    refine ⟨hf.1, ?_, ?_, ?_⟩
    · rw [hf.2.1, hq1]
    · rw [hf.2.2.1, hq2]
    · rw [hf.2.2.2, hqa, hqr]
  · have heff : effective_rate r Currency.MXN Currency.USD = r.mxn_to_usd := by
      simp [effective_rate]
    rw [convert_currency_mxn_usd, heff]
    rw [heff] at hr
    have hf := convert_with_rate_facts s u Currency.MXN Currency.USD a
      r.mxn_to_usd hne hbal
    have hq1 : quantize2 (balanceOf s u Currency.MXN - a) =
        balanceOf s u Currency.MXN - a :=
      quantize2_eq_self _
        (scale2_sub _ _ (scale2_balanceOf s u Currency.MXN hs) ha)
    have hq2 := quantize2_add_scale2 (balanceOf s u Currency.USD)
      (a * r.mxn_to_usd) (scale2_balanceOf s u Currency.USD hs)
    have hqa : quantize2 a = a := quantize2_eq_self a ha
    have hqr : quantize4 r.mxn_to_usd = r.mxn_to_usd := quantize4_eq_self _ hr
    refine ⟨hf.1, ?_, ?_, ?_⟩
    · rw [hf.2.1, hq1]
    · rw [hf.2.2.1, hq2]
    · rw [hf.2.2.2, hqa, hqr]
  · exact absurd rfl hne

/-- Witness for C2: concrete successful conversion of 5 USD at rate 18.70
from a wallet holding 10 USD; all hypotheses (distinct pair, sufficient
balance, 2dp state and amount, 4dp rate) hold at this input. -/
theorem claim_C2_convert_conservation_witness :
    (convert_currency ⟨187/10, 53/1000⟩ "u2" Currency.USD Currency.MXN 5
        ⟨[⟨"u2", Currency.USD, 10⟩], [], 1⟩).1 =
      Except.ok ⟨"u2", Currency.USD, Currency.MXN, 5,
        5 * effective_rate ⟨187/10, 53/1000⟩ Currency.USD Currency.MXN,
        effective_rate ⟨187/10, 53/1000⟩ Currency.USD Currency.MXN⟩ ∧
    balanceOf (convert_currency ⟨187/10, 53/1000⟩ "u2" Currency.USD
        Currency.MXN 5 ⟨[⟨"u2", Currency.USD, 10⟩], [], 1⟩).2 "u2"
        Currency.USD =
      balanceOf ⟨[⟨"u2", Currency.USD, 10⟩], [], 1⟩ "u2" Currency.USD - 5 ∧
    balanceOf (convert_currency ⟨187/10, 53/1000⟩ "u2" Currency.USD
        Currency.MXN 5 ⟨[⟨"u2", Currency.USD, 10⟩], [], 1⟩).2 "u2"
        Currency.MXN =
      balanceOf ⟨[⟨"u2", Currency.USD, 10⟩], [], 1⟩ "u2" Currency.MXN +
        quantize2 (5 * effective_rate ⟨187/10, 53/1000⟩ Currency.USD
          Currency.MXN) ∧
    (convert_currency ⟨187/10, 53/1000⟩ "u2" Currency.USD Currency.MXN 5
        ⟨[⟨"u2", Currency.USD, 10⟩], [], 1⟩).2.txs = [] ++
      [⟨1, "u2", TransactionType.CONVERT, none, none, some Currency.USD,
        some Currency.MXN, some 5,
        some (quantize2 (5 * effective_rate ⟨187/10, 53/1000⟩ Currency.USD
          Currency.MXN)),
        some (effective_rate ⟨187/10, 53/1000⟩ Currency.USD Currency.MXN),
        1⟩] := by
  have husd : balanceOf ⟨[⟨"u2", Currency.USD, 10⟩], [], 1⟩ "u2"
      Currency.USD = 10 := rfl
  apply claim_C2_convert_conservation ⟨187/10, 53/1000⟩ "u2" Currency.USD
    Currency.MXN 5 ⟨[⟨"u2", Currency.USD, 10⟩], [], 1⟩ (by decide)
    (by rw [husd]; norm_num)
    (by
      intro w hw
      simp at hw
      subst hw
      norm_num [Scale2])
    (by norm_num [Scale2])
    (by norm_num [Scale4, effective_rate])

/-- Counterexample to C7 as stated: the recorded transaction does not
satisfy to_amount = from_amount x fx_rate exactly.  Converting 0.01 USD at
rate 18.70 appends a row whose committed to_amount is the Numeric(20, 2)
column value 0.19, while from_amount x fx_rate = 0.01 x 18.70 = 0.187. -/
theorem claim_C7_exact_product_cex :
    (convert_currency ⟨187/10, 53/1000⟩ "u7" Currency.USD Currency.MXN
        (1/100) ⟨[⟨"u7", Currency.USD, 1⟩], [], 1⟩).2.txs =
      [⟨1, "u7", TransactionType.CONVERT, none, none, some Currency.USD,
        some Currency.MXN, some (1/100), some (19/100), some (187/10), 1⟩] ∧
    (19/100 : ℚ) ≠ (1/100) * (187/10) := by
  constructor
  · have husd : balanceOf ⟨[⟨"u7", Currency.USD, 1⟩], [], 1⟩ "u7"
        Currency.USD = 1 := rfl
    rw [convert_currency_usd_mxn]
    have hf := (convert_with_rate_facts ⟨[⟨"u7", Currency.USD, 1⟩], [], 1⟩
      "u7" Currency.USD Currency.MXN (1/100) (187/10) (by decide)
      (by rw [husd]; norm_num)).2.2.2
    rw [hf]
    norm_num [quantize2, quantize4]
  · norm_num

/-- C7 (amended): every successful convert reads the exchange rate exactly
once and reuses that single snapshot for both legs — the returned result
carries to_amount = from_amount x fx for the one snapshot fx selected at
call time, and the single appended transaction records that same snapshot:
its fx_rate is the snapshot stored at the 4-digit fx_rate column scale and
its to_amount is round(from_amount x snapshot, 2 digits), the Numeric(20, 2)
committed value.  The recorded row therefore reflects the rate in effect at
its own call, and since the log is append-only, a provider rate change
between two conversions cannot alter the earlier record. -/
theorem claim_C7_single_rate_read (r : RateState) (u : String)
    (c1 c2 : Currency) (a : ℚ) (s : EngineState) (res : ConvertResult)
    (h : (convert_currency r u c1 c2 a s).1 = Except.ok res) :
    ((c1 = Currency.USD ∧ c2 = Currency.MXN ∧ res.fx_rate = r.usd_to_mxn) ∨
     (c1 = Currency.MXN ∧ c2 = Currency.USD ∧ res.fx_rate = r.mxn_to_usd)) ∧
    res.from_amount = a ∧
    res.to_amount = res.from_amount * res.fx_rate ∧
    (convert_currency r u c1 c2 a s).2.txs = s.txs ++
      [⟨s.next_tx_id, u, TransactionType.CONVERT, none, none, some c1,
        some c2, some (quantize2 res.from_amount),
        some (quantize2 (res.from_amount * res.fx_rate)),
        some (quantize4 res.fx_rate), s.next_tx_id⟩] := by
  cases c1 <;> cases c2
  · simp [convert_currency] at h
  · rw [convert_currency_usd_mxn] at h ⊢
    obtain ⟨hbal, hres⟩ := convert_with_rate_ok _ _ _ _ _ _ _ h
    subst hres
    have hf := convert_with_rate_facts s u Currency.USD Currency.MXN a
      r.usd_to_mxn (by decide) hbal
    exact ⟨Or.inl ⟨rfl, rfl, rfl⟩, rfl, rfl, hf.2.2.2⟩
  · rw [convert_currency_mxn_usd] at h ⊢
    obtain ⟨hbal, hres⟩ := convert_with_rate_ok _ _ _ _ _ _ _ h
    subst hres
    have hf := convert_with_rate_facts s u Currency.MXN Currency.USD a
      r.mxn_to_usd (by decide) hbal
    exact ⟨Or.inr ⟨rfl, rfl, rfl⟩, rfl, rfl, hf.2.2.2⟩
  · simp [convert_currency] at h

/-- Witness for C7 (amended): a concrete successful conversion records the
snapshot rate 18.70 (4dp-exact) and the 2dp-committed to_amount 93.50 =
round(5 x 18.70, 2dp). -/
theorem claim_C7_single_rate_read_witness :
    (convert_currency ⟨187/10, 53/1000⟩ "w7" Currency.USD Currency.MXN 5
        ⟨[⟨"w7", Currency.USD, 10⟩], [], 1⟩).2.txs =
      [⟨1, "w7", TransactionType.CONVERT, none, none, some Currency.USD,
        some Currency.MXN, some 5, some (187/2), some (187/10), 1⟩] := by
  have husd : balanceOf ⟨[⟨"w7", Currency.USD, 10⟩], [], 1⟩ "w7"
      Currency.USD = 10 := rfl
  have h : (convert_currency ⟨187/10, 53/1000⟩ "w7" Currency.USD Currency.MXN
      5 ⟨[⟨"w7", Currency.USD, 10⟩], [], 1⟩).1 =
      Except.ok ⟨"w7", Currency.USD, Currency.MXN, 5, 5 * (187/10), 187/10⟩ := by
    rw [convert_currency_usd_mxn]
    exact (convert_with_rate_facts _ "w7" Currency.USD Currency.MXN 5 (187/10)
      (by decide) (by rw [husd]; norm_num)).1
  have hc := claim_C7_single_rate_read ⟨187/10, 53/1000⟩ "w7" Currency.USD
    Currency.MXN 5 ⟨[⟨"w7", Currency.USD, 10⟩], [], 1⟩
    ⟨"w7", Currency.USD, Currency.MXN, 5, 5 * (187/10), 187/10⟩ h
  have ht := hc.2.2.2
  rw [ht]
  norm_num [quantize2, quantize4]

/-- C10: Currency is closed (USD and MXN only), so any two distinct
currencies are exactly the pair USD, MXN in one of the two orders; the
unsupported-pair error branch of convert_currency is unreachable for every
well-typed input — the rate selection after the same-currency check always
succeeds. -/
theorem claim_C10_unsupported_unreachable (r : RateState) (u : String)
    (c1 c2 : Currency) (a : ℚ) (s : EngineState) :
    (∀ x y, (convert_currency r u c1 c2 a s).1 ≠
        Except.error (WalletError.unsupportedPair x y)) ∧
    (c1 ≠ c2 → (c1 = Currency.USD ∧ c2 = Currency.MXN) ∨
      (c1 = Currency.MXN ∧ c2 = Currency.USD)) := by
  constructor
  · intro x y
    cases c1 <;> cases c2
    · simp [convert_currency]
    · rw [convert_currency_usd_mxn]
      exact convert_with_rate_not_unsupported _ _ _ _ _ _ _ _
    · rw [convert_currency_mxn_usd]
      exact convert_with_rate_not_unsupported _ _ _ _ _ _ _ _
    · simp [convert_currency]
  · intro hne
    cases c1 <;> cases c2
    · exact absurd rfl hne
    · exact Or.inl ⟨rfl, rfl⟩
    · exact Or.inr ⟨rfl, rfl⟩
    · exact absurd rfl hne

/-- Witness for C10: at a concrete distinct pair the branch hypothesis is
satisfied and the unsupported-pair error is indeed not produced. -/
theorem claim_C10_unsupported_unreachable_witness :
    (convert_currency ⟨187/10, 53/1000⟩ "w10" Currency.USD Currency.MXN 5
        ⟨[], [], 1⟩).1 ≠
      Except.error (WalletError.unsupportedPair Currency.USD Currency.MXN) ∧
    ((Currency.USD = Currency.USD ∧ Currency.MXN = Currency.MXN) ∨
      (Currency.USD = Currency.MXN ∧ Currency.MXN = Currency.USD)) :=
  ⟨(claim_C10_unsupported_unreachable ⟨187/10, 53/1000⟩ "w10" Currency.USD
      Currency.MXN 5 ⟨[], [], 1⟩).1 Currency.USD Currency.MXN,
   (claim_C10_unsupported_unreachable ⟨187/10, 53/1000⟩ "w10" Currency.USD
      Currency.MXN 5 ⟨[], [], 1⟩).2 (by decide)⟩

/-- C4: a withdraw whose wallet balance (0.00 for a just-created wallet) is
strictly below the amount fails with InsufficientBalance carrying the
available and required amounts, leaves every wallet balance as it was and
records no transaction; otherwise it succeeds with new balance = balance −
amount and appends exactly one withdraw transaction carrying that currency
and amount.  Disclosed hypotheses matching the program's data model: stored
balances and the amount sit at the 2dp column/validation scale, so the
committed scale-2 rounding is the identity here. -/
theorem claim_C4_withdraw_spec (s : EngineState) (u : String) (c : Currency)
    (a : ℚ) (hs : Scale2State s) (ha : Scale2 a) :
    (balanceOf s u c < a →
      (withdraw_funds u c a s).1 =
        Except.error (WalletError.insufficientBalance (balanceOf s u c) a) ∧
      (∀ u' c', balanceOf (withdraw_funds u c a s).2 u' c' =
        balanceOf s u' c') ∧
      (withdraw_funds u c a s).2.txs = s.txs) ∧
    (a ≤ balanceOf s u c →
      (withdraw_funds u c a s).1 =
        Except.ok ⟨u, c, a, balanceOf s u c - a⟩ ∧
      balanceOf (withdraw_funds u c a s).2 u c = balanceOf s u c - a ∧
      (∀ u' c', ¬(u' = u ∧ c' = c) →
        balanceOf (withdraw_funds u c a s).2 u' c' = balanceOf s u' c') ∧
      (withdraw_funds u c a s).2.txs = s.txs ++
        [⟨s.next_tx_id, u, TransactionType.WITHDRAW, some c, some a, none,
          none, none, none, none, s.next_tx_id⟩]) := by
  have hq : quantize2 (balanceOf s u c - a) = balanceOf s u c - a :=
    quantize2_eq_self _ (scale2_sub _ _ (scale2_balanceOf s u c hs) ha)
  have hqa : quantize2 a = a := quantize2_eq_self a ha
  unfold withdraw_funds
  dsimp only
  rw [goc_fst s u c]
  dsimp only
  constructor
  · intro hlt
    rw [if_pos hlt]
    refine ⟨rfl, ?_, ?_⟩
    · intro u' c'
      exact goc_balanceOf s u c u' c'
    · exact goc_txs s u c
  · intro hge
    rw [if_neg (not_lt.mpr hge)]
    have hsome : (get_by_user_and_currency (get_or_create s u c).2 u c).isSome := by
      rw [goc_lookup_same]
      rfl
    refine ⟨?_, ?_, ?_, ?_⟩
    · show Except.ok
        (⟨u, c, a, quantize2 (balanceOf s u c - a)⟩ : SingleResult) =
        Except.ok ⟨u, c, a, balanceOf s u c - a⟩
      rw [hq]
    · rw [tx_create_balanceOf, wallet_update_balanceOf_same _ u c _ hsome]
      exact hq
    · intro u' c' hne
      rw [tx_create_balanceOf,
        wallet_update_balanceOf_other _ u c _ u' c' hne, goc_balanceOf]
    · rw [tx_create_txs]
      simp only [wallet_update_txs, goc_txs, wallet_update_next_tx_id,
        goc_next_tx_id, tx_quantize, Option.map_some', Option.map_none']
      rw [hqa]

/-- Witness for C4: from a wallet holding 100, withdrawing 30 succeeds with
new balance 70; the 2dp hypotheses hold at this input. -/
theorem claim_C4_withdraw_spec_witness :
    (withdraw_funds "u4" Currency.USD 30
        ⟨[⟨"u4", Currency.USD, 100⟩], [], 1⟩).1 =
      Except.ok ⟨"u4", Currency.USD, 30, 70⟩ := by
  have hb : balanceOf ⟨[⟨"u4", Currency.USD, 100⟩], [], 1⟩ "u4"
      Currency.USD = 100 := rfl
  have h := (claim_C4_withdraw_spec ⟨[⟨"u4", Currency.USD, 100⟩], [], 1⟩
    "u4" Currency.USD 30
    (by
      intro w hw
      simp at hw
      subst hw
      norm_num [Scale2])
    (by norm_num [Scale2])).2 (by rw [hb]; norm_num)
  rw [h.1, hb]
  norm_num

/-- Counterexample to C5 as stated: the Engine (WalletService.fund_wallet)
does not reject a non-positive amount — funding −5 into an empty store is
accepted, commits a wallet with balance −5 and appends a fund transaction.
The ≤ 0 rejection happens only at the API boundary schemas. -/
theorem claim_C5_service_accepts_nonpositive_cex :
    (fund_wallet "u5" Currency.USD (-5) ⟨[], [], 1⟩).1 =
      Except.ok ⟨"u5", Currency.USD, -5, -5⟩ ∧
    (fund_wallet "u5" Currency.USD (-5) ⟨[], [], 1⟩).2.wallets =
      [⟨"u5", Currency.USD, -5⟩] ∧
    (fund_wallet "u5" Currency.USD (-5) ⟨[], [], 1⟩).2.txs ≠ [] := by
  refine ⟨?_, ?_, ?_⟩
  · have h := (fund_wallet_facts "u5" Currency.USD (-5) ⟨[], [], 1⟩).1
    have hb : balanceOf ⟨[], [], 1⟩ "u5" Currency.USD = 0 := rfl
    rw [h, hb]
    norm_num [quantize2]
  · show ([] ++ [(⟨"u5", Currency.USD, 0⟩ : Wallet)]).map
      (wallet_row_update ⟨"u5", Currency.USD, quantize2 (0 + -5)⟩) =
        [⟨"u5", Currency.USD, -5⟩]
    norm_num [wallet_row_update, wallet_matches, quantize2]
  · have h := (fund_wallet_facts "u5" Currency.USD (-5) ⟨[], [], 1⟩).2.2.2
    rw [h]
    simp

/-- C5 (amended): a fund request with amount ≤ 0 is rejected by the Pydantic
schema validation at the API boundary — before the Engine runs — leaving the
wallet store and transaction log unchanged; the Engine itself performs no
amount validation.  For a request passing validation (amount > 0 with at
most 2 decimal places) against a stored state (whose balances sit at the 2dp
column scale), the wallet is get-or-created, the balance grows by the amount
and one fund transaction is appended. -/
theorem claim_C5_fund_boundary (u : String) (c : Currency) (a : ℚ)
    (s : EngineState) (hs : Scale2State s) :
    (a ≤ 0 →
      fund_endpoint u c a s = (Except.error WalletError.validationError, s)) ∧
    (valid_request_amount a = true →
      (fund_endpoint u c a s).1 =
        Except.ok ⟨u, c, a, balanceOf s u c + a⟩ ∧
      balanceOf (fund_endpoint u c a s).2 u c = balanceOf s u c + a ∧
      (fund_endpoint u c a s).2.txs = s.txs ++
        [⟨s.next_tx_id, u, TransactionType.FUND, some c, some a, none, none,
          none, none, none, s.next_tx_id⟩]) := by
  constructor
  · intro hle
    have hv : valid_request_amount a = false := by
      unfold valid_request_amount
      simp [decide_eq_false (not_lt.mpr hle)]
    unfold fund_endpoint
    rw [hv]
    simp
  · intro hv
    have ha : Scale2 a := by
      unfold valid_request_amount at hv
      simp only [Bool.and_eq_true, beq_iff_eq] at hv
      exact hv.2
    have hq : quantize2 (balanceOf s u c + a) = balanceOf s u c + a :=
      quantize2_eq_self _ (scale2_add _ _ (scale2_balanceOf s u c hs) ha)
    have hqa : quantize2 a = a := quantize2_eq_self a ha
    unfold fund_endpoint
    rw [hv]
    simp only [if_true]
    refine ⟨?_, ?_, ?_⟩
    · rw [(fund_wallet_facts u c a s).1, hq]
    · rw [(fund_wallet_facts u c a s).2.1, hq]
    · rw [(fund_wallet_facts u c a s).2.2.2, hqa]

/-- Witness for C5 (amended): both hypotheses are satisfiable — a −5 request
is rejected without touching the state, and a valid request for 3 lands in
the balance. -/
theorem claim_C5_fund_boundary_witness :
    fund_endpoint "u5b" Currency.USD (-5) ⟨[], [], 1⟩ =
      (Except.error WalletError.validationError, ⟨[], [], 1⟩) ∧
    balanceOf (fund_endpoint "u5b" Currency.USD 3 ⟨[], [], 1⟩).2 "u5b"
      Currency.USD = balanceOf ⟨[], [], 1⟩ "u5b" Currency.USD + 3 :=
  ⟨(claim_C5_fund_boundary "u5b" Currency.USD (-5) ⟨[], [], 1⟩
      (by intro w hw; simp at hw)).1 (by norm_num),
   ((claim_C5_fund_boundary "u5b" Currency.USD 3 ⟨[], [], 1⟩
      (by intro w hw; simp at hw)).2
      (by norm_num [valid_request_amount])).2.1⟩

theorem withdraw_funds_insufficient (u : String) (c : Currency) (a : ℚ)
    (s : EngineState) (hlt : balanceOf s u c < a) :
    withdraw_funds u c a s =
      (Except.error (WalletError.insufficientBalance (balanceOf s u c) a),
       (get_or_create s u c).2) := by
  unfold withdraw_funds
  dsimp only
  rw [goc_fst s u c]
  dsimp only
  rw [if_pos hlt]

theorem convert_with_rate_insufficient (s : EngineState) (u : String)
    (c1 c2 : Currency) (a fx : ℚ) (hlt : balanceOf s u c1 < a) :
    convert_with_rate u c1 c2 a fx s =
      (Except.error (WalletError.insufficientBalance (balanceOf s u c1) a),
       (get_or_create s u c1).2) := by
  unfold convert_with_rate
  dsimp only
  rw [goc_fst s u c1]
  dsimp only
  rw [if_pos hlt]

theorem convert_currency_insufficient (r : RateState) (u : String)
    (c1 c2 : Currency) (a : ℚ) (s : EngineState) (hne : c1 ≠ c2)
    (hlt : balanceOf s u c1 < a) :
    convert_currency r u c1 c2 a s =
      (Except.error (WalletError.insufficientBalance (balanceOf s u c1) a),
       (get_or_create s u c1).2) := by
  cases c1 <;> cases c2
  · exact absurd rfl hne
  · rw [convert_currency_usd_mxn]
    exact convert_with_rate_insufficient s u _ _ a _ hlt
  · rw [convert_currency_mxn_usd]
    exact convert_with_rate_insufficient s u _ _ a _ hlt
  · exact absurd rfl hne

theorem goc_create_wallets (s : EngineState) (u : String) (c : Currency)
    (hnone : get_by_user_and_currency s u c = none) :
    (get_or_create s u c).2.wallets = s.wallets ++ [⟨u, c, 0⟩] := by
  unfold get_or_create
  rw [hnone]
  rfl

theorem get_balances_mem (s : EngineState) (u : String) (w : Wallet)
    (hw : w ∈ s.wallets) (hu : w.user_id = u) :
    (w.currency, w.balance) ∈ get_balances s u := by
  unfold get_balances get_all_by_user
  exact List.mem_map.mpr ⟨w, List.mem_filter.mpr ⟨hw, by simp [hu]⟩, rfl⟩

/-- C9: a withdraw or a convert hitting InsufficientBalance on a (user,
currency) that had no wallet still creates and commits a 0.00 wallet for the
pair — get_or_create commits the row before the balance check runs — so a
later getBalances shows a 0.00 entry for that currency instead of no
entry. -/
theorem claim_C9_failed_op_creates_wallet (s : EngineState) (u : String)
    (c c2 : Currency) (a : ℚ) (r : RateState)
    (hnone : get_by_user_and_currency s u c = none) (ha : 0 < a)
    (hne : c ≠ c2) :
    ((withdraw_funds u c a s).1 =
        Except.error (WalletError.insufficientBalance 0 a) ∧
      get_by_user_and_currency (withdraw_funds u c a s).2 u c =
        some ⟨u, c, 0⟩ ∧
      (c, (0 : ℚ)) ∈ get_balances (withdraw_funds u c a s).2 u) ∧
    ((convert_currency r u c c2 a s).1 =
        Except.error (WalletError.insufficientBalance 0 a) ∧
      get_by_user_and_currency (convert_currency r u c c2 a s).2 u c =
        some ⟨u, c, 0⟩ ∧
      (c, (0 : ℚ)) ∈ get_balances (convert_currency r u c c2 a s).2 u) := by
  have hb0 : balanceOf s u c = 0 := by
    unfold balanceOf
    rw [hnone]
  have hlt : balanceOf s u c < a := by
    rw [hb0]
    exact ha
  have hmem : (⟨u, c, 0⟩ : Wallet) ∈ (get_or_create s u c).2.wallets := by
    rw [goc_create_wallets s u c hnone]
    exact List.mem_append.mpr (Or.inr (by simp))
  have hlook : get_by_user_and_currency (get_or_create s u c).2 u c =
      some ⟨u, c, 0⟩ := by
    rw [goc_lookup_same, hb0]
  constructor
  · rw [withdraw_funds_insufficient u c a s hlt]
    exact ⟨by rw [hb0], hlook, get_balances_mem _ u ⟨u, c, 0⟩ hmem rfl⟩
  · rw [convert_currency_insufficient r u c c2 a s hne hlt]
    exact ⟨by rw [hb0], hlook, get_balances_mem _ u ⟨u, c, 0⟩ hmem rfl⟩

/-- Witness for C9: withdrawing 5 USD for a user with no wallets fails but
leaves a committed zero-balance USD wallet behind. -/
theorem claim_C9_failed_op_creates_wallet_witness :
    get_by_user_and_currency
        (withdraw_funds "u9" Currency.USD 5 ⟨[], [], 1⟩).2 "u9"
        Currency.USD = some ⟨"u9", Currency.USD, 0⟩ ∧
    (Currency.USD, (0 : ℚ)) ∈
      get_balances (withdraw_funds "u9" Currency.USD 5 ⟨[], [], 1⟩).2 "u9" :=
  ⟨((claim_C9_failed_op_creates_wallet ⟨[], [], 1⟩ "u9" Currency.USD
      Currency.MXN 5 ⟨187/10, 53/1000⟩ rfl (by norm_num) (by decide)).1).2.1,
   ((claim_C9_failed_op_creates_wallet ⟨[], [], 1⟩ "u9" Currency.USD
      Currency.MXN 5 ⟨187/10, 53/1000⟩ rfl (by norm_num) (by decide)).1).2.2⟩

theorem creditFail_usd_mxn (r : RateState) (u : String) (a : ℚ)
    (s : EngineState) (hbal : a ≤ balanceOf s u Currency.USD) :
    convert_currency_creditPersistFails r u Currency.USD Currency.MXN a s =
      (get_or_create (wallet_update (get_or_create s u Currency.USD).2
        ⟨u, Currency.USD, balanceOf s u Currency.USD - a⟩) u
        Currency.MXN).2 := by
  unfold convert_currency_creditPersistFails
  simp only [reduceCtorEq, if_false, and_self, if_true, or_false,
    reduceIte]
  rw [goc_fst s u Currency.USD]
  dsimp only
  rw [if_neg (not_lt.mpr hbal)]

theorem creditFail_usd_mxn_facts (r : RateState) (u : String) (a : ℚ)
    (s : EngineState) (hbal : a ≤ balanceOf s u Currency.USD) :
    balanceOf (convert_currency_creditPersistFails r u Currency.USD
        Currency.MXN a s) u Currency.USD =
      quantize2 (balanceOf s u Currency.USD - a) ∧
    balanceOf (convert_currency_creditPersistFails r u Currency.USD
        Currency.MXN a s) u Currency.MXN =
      balanceOf s u Currency.MXN ∧
    (convert_currency_creditPersistFails r u Currency.USD Currency.MXN
        a s).txs = s.txs := by
  rw [creditFail_usd_mxn r u a s hbal]
  have hsome : (get_by_user_and_currency (get_or_create s u Currency.USD).2 u
      Currency.USD).isSome := by
    rw [goc_lookup_same]
    rfl
  have h12 : ¬(u = u ∧ Currency.MXN = Currency.USD) :=
    fun hc => Currency.noConfusion hc.2
  refine ⟨?_, ?_, ?_⟩
  · rw [goc_balanceOf]
    exact wallet_update_balanceOf_same _ u Currency.USD _ hsome
  · rw [goc_balanceOf,
      wallet_update_balanceOf_other _ u Currency.USD _ u Currency.MXN h12,
      goc_balanceOf]
  · rw [goc_txs, wallet_update_txs, goc_txs]

/-- C1: refuted by the code — the claim (and the spec) require that when the
destination-side persist of a convert fails after the source-side persist
succeeded, everything rolls back.  Evaluating the fault-injected convert of
50 USD to MXN at rate 18.70 from a 100 USD wallet shows the committed state
keeps the debit: the source balance is 50, not the original 100.  Each
repository update runs session.commit() of its own, so there is no enclosing
unit of work left to roll the debit back; only the destination credit and the
transaction append are lost (destination balance and log are unchanged). -/
theorem claim_C1_credit_fail_keeps_debit :
    balanceOf (convert_currency_creditPersistFails ⟨187/10, 53/1000⟩ "u1"
        Currency.USD Currency.MXN 50 ⟨[⟨"u1", Currency.USD, 100⟩], [], 1⟩)
        "u1" Currency.USD = 50 ∧
    (50 : ℚ) ≠ 100 ∧
    balanceOf ⟨[⟨"u1", Currency.USD, 100⟩], [], 1⟩ "u1" Currency.USD = 100 ∧
    balanceOf (convert_currency_creditPersistFails ⟨187/10, 53/1000⟩ "u1"
        Currency.USD Currency.MXN 50 ⟨[⟨"u1", Currency.USD, 100⟩], [], 1⟩)
        "u1" Currency.MXN = 0 ∧
    (convert_currency_creditPersistFails ⟨187/10, 53/1000⟩ "u1" Currency.USD
        Currency.MXN 50 ⟨[⟨"u1", Currency.USD, 100⟩], [], 1⟩).txs = [] := by
  have hb : balanceOf ⟨[⟨"u1", Currency.USD, 100⟩], [], 1⟩ "u1"
      Currency.USD = 100 := rfl
  have hf := creditFail_usd_mxn_facts ⟨187/10, 53/1000⟩ "u1" 50
    ⟨[⟨"u1", Currency.USD, 100⟩], [], 1⟩ (by rw [hb]; norm_num)
  refine ⟨?_, by norm_num, hb, ?_, hf.2.2⟩
  · rw [hf.1, hb]
    norm_num [quantize2]
  · rw [hf.2.1]
    rfl

/-- C8: one refresh tick of the rate service in external-feed mode is a
total state transformer — every fetch or parse failure (network error,
non-success HTTP status, missing rates key, malformed value) is caught,
logged and leaves both held rates unchanged, so nothing can propagate to a
caller of convert; a successfully parsed non-zero rate v sets USD to MXN to
v and MXN to USD to round(1 / v, 4), Python round being half-to-even. -/
theorem claim_C8_refresh_failure_retains (r : RateState) :
    (∀ o : FetchOutcome, o.isFailure = true → update_api_rates o r = r) ∧
    (∀ v : ℚ, v ≠ 0 →
      update_api_rates (FetchOutcome.success v) r =
        ⟨v, pyRound4 (1 / v)⟩) := by
  constructor
  · intro o ho
    cases o with
    | success v => simp [FetchOutcome.isFailure] at ho
    | networkError => rfl
    | httpStatusError => rfl
    | missingRatesKey => rfl
    | malformedValue => rfl
  · intro v hv
    show (if v = 0 then ({ usd_to_mxn := v, mxn_to_usd := r.mxn_to_usd } : RateState)
      else { usd_to_mxn := v, mxn_to_usd := pyRound4 (1 / v) }) =
      ⟨v, pyRound4 (1 / v)⟩
    rw [if_neg hv]

/-- Witness for C8: a network-error tick keeps the default rates 18.70 and
0.053; a successful fetch of rate 20 stores 20 and the rounded inverse
0.05. -/
theorem claim_C8_refresh_failure_retains_witness :
    update_api_rates FetchOutcome.networkError ⟨187/10, 53/1000⟩ =
      ⟨187/10, 53/1000⟩ ∧
    update_api_rates (FetchOutcome.success 20) ⟨187/10, 53/1000⟩ =
      ⟨20, 5/100⟩ := by
  constructor
  · exact (claim_C8_refresh_failure_retains ⟨187/10, 53/1000⟩).1
      FetchOutcome.networkError rfl
  · have h := (claim_C8_refresh_failure_retains ⟨187/10, 53/1000⟩).2 20
      (by norm_num)
    rw [h]
    have : pyRound4 (1 / (20 : ℚ)) = 5/100 := by
      unfold pyRound4 roundHalfEvenZ
      norm_num [Int.fract]
    rw [this]

end FxProc
